import Mathlib

/-!
Verification development for gping's core (src/main.rs): the windowed
per-source time-series model (`App`), its axis-bound computations, the
histogram statistics, the render-loop state machine, and the watch-command
producer's sample classification.

Modelling conventions:
- Rust `f64` values are modelled by an extended-rational type `EF`
  (finite rational, two infinities, NaN) whose operations follow the IEEE
  behaviour of the cases that actually arise (folds seeded with
  `f64::INFINITY`, `inf - inf = NaN`, Rust's `f64::min`/`f64::max` that
  ignore a NaN operand).  Finite arithmetic is exact rational arithmetic:
  the quantities involved (microsecond counts, window indices) are
  integer-valued, and f64 rounding is abstracted away.
- `Duration` is modelled by its microsecond count as a natural number
  (the code only ever reads durations through `as_micros`).
- `FixedRingBuffer` lives in `src/ringbuffer.rs`, which is not part of the
  provided sources; it is modelled from the spec (see `rbPush`).
-/

/-- Extended rational modelling the Rust `f64` values used by `App`:
a finite rational, plus `inf`, `ninf` and `nan`. -/
inductive EF where
  | nan : EF
  | inf : EF
  | ninf : EF
  | fin : ℚ → EF
  deriving DecidableEq, Repr

namespace EF

/-- Rust's `f64::min`: if one operand is NaN the other is returned. -/
def min : EF → EF → EF
  | nan, b => b
  | a, nan => a
  | ninf, _ => ninf
  | _, ninf => ninf
  | inf, b => b
  | a, inf => a
  | fin a, fin b => fin (Min.min a b)

/-- Rust's `f64::max`: if one operand is NaN the other is returned. -/
def max : EF → EF → EF
  | nan, b => b
  | a, nan => a
  | inf, _ => inf
  | _, inf => inf
  | ninf, b => b
  | a, ninf => a
  | fin a, fin b => fin (Max.max a b)

/-- IEEE addition restricted to the cases arising here. -/
def add : EF → EF → EF
  | nan, _ => nan
  | _, nan => nan
  | inf, ninf => nan
  | ninf, inf => nan
  | inf, _ => inf
  | _, inf => inf
  | ninf, _ => ninf
  | _, ninf => ninf
  | fin a, fin b => fin (a + b)

/-- IEEE subtraction restricted to the cases arising here; in particular
`inf - inf = nan`, which is what the empty y-axis fold produces. -/
def sub : EF → EF → EF
  | nan, _ => nan
  | _, nan => nan
  | inf, inf => nan
  | ninf, ninf => nan
  | inf, _ => inf
  | _, inf => ninf
  | ninf, _ => ninf
  | _, ninf => inf
  | fin a, fin b => fin (a - b)

/-- IEEE multiplication by a positive rational constant (the code only
multiplies by the literal `10`). -/
def mulPos (c : ℚ) : EF → EF
  | nan => nan
  | inf => inf
  | ninf => ninf
  | fin a => fin (a * c)

/-- IEEE division by a positive rational constant (the code only divides
by the literal `100`). -/
def divPos (c : ℚ) : EF → EF
  | nan => nan
  | inf => inf
  | ninf => ninf
  | fin a => fin (a / c)

end EF

/-- Modelled from the spec: `FixedRingBuffer::push` from the missing
`src/ringbuffer.rs` — fixed capacity, FIFO eviction, "if at capacity, the
oldest element is overwritten (dropped) and the new element becomes
newest", no reordering of the survivors.  The buffer is represented by its
ordered snapshot, oldest first. -/
def rbPush (cap : ℕ) (buf : List α) (x : α) : List α :=
  if cap ≤ buf.length then buf.tail ++ [x] else buf ++ [x]

/-- Rust's `as u64` cast from `f64`: truncate toward zero, saturating at
the ends of the `u64` range (modelled on exact rationals). -/
def ratCastU64 (q : ℚ) : ℕ :=
  if q ≤ 0 then 0 else Nat.min (⌊q⌋.toNat) (2 ^ 64 - 1)

/-- The `App` struct of src/main.rs (lines 59-67), with the
terminal-styling and host→ip fields dropped as pure rendering data:
per-source ring buffers of `(x, y)` points, the shared capacity, the
per-source sequence counter `idx`, and the per-source window envelope. -/
structure App where
  data : List (List (ℚ × ℚ))
  capacity : ℕ
  idx : List ℤ
  window_min : List ℚ
  window_max : List ℚ
  deriving DecidableEq, Repr

namespace App

/-- `App::new` (main.rs lines 70-84): empty buffers, `idx = 0`,
`window_min = 0`, `window_max = capacity` for each of the
`thread_count` sources. -/
def new (thread_count capacity : ℕ) : App where
  data := List.replicate thread_count []
  capacity := capacity
  idx := List.replicate thread_count 0
  window_min := List.replicate thread_count 0
  window_max := List.replicate thread_count (capacity : ℚ)

/-- `App::update` (main.rs lines 85-96): increment the sequence counter,
slide the window by one when the buffer is already full, then push
`(idx, duration-in-µs)` — with a timeout recorded as a zero value.
`item = some d` carries the duration's microsecond count. -/
def update (a : App) (host_id : ℕ) (item : Option ℕ) : App :=
  let newIdx := a.idx.getD host_id 0 + 1
  let buf := a.data.getD host_id []
  let slide := a.capacity ≤ buf.length
  let val : ℚ := match item with
    | some dur => (dur : ℚ)
    | none => 0
  { a with
    idx := a.idx.set host_id newIdx
    window_min :=
      if slide then a.window_min.set host_id (a.window_min.getD host_id 0 + 1)
      else a.window_min
    window_max :=
      if slide then a.window_max.set host_id (a.window_max.getD host_id 0 + 1)
      else a.window_max
    data := a.data.set host_id (rbPush a.capacity buf ((newIdx : ℚ), val)) }

/-- Modelled from the spec: one `increment` on the external `histogram`
crate's `Histogram` — the histogram is represented by the list of
recorded values, a value outside the representable range (abstracted as
an upper bound `bound`) is silently dropped, and the operation is total
("rather than failing the update"). -/
def histIncrement (bound : ℕ) (h : List ℕ) (v : ℕ) : List ℕ :=
  if v ≤ bound then h ++ [v] else h

/-- `App::stats` (main.rs lines 97-110): per source, build a histogram
from the buffer's values with the zero (timeout) values filtered out,
each value cast `as u64`.  `bound` abstracts the histogram's
representable range (see `histIncrement`). -/
def stats (bound : ℕ) (a : App) : List (List ℕ) :=
  a.data.map (fun data =>
    (data.filter (fun v => v.2 ≠ 0)).foldl
      (fun h v => histIncrement bound h (ratCastU64 v.2)) [])

/-- `App::x_axis_bounds` (main.rs lines 111-116): fold `f64::min` over
`window_min` seeded with `f64::INFINITY`, and `f64::max` over
`window_max` seeded with `0`. -/
def x_axis_bounds (a : App) : EF × EF :=
  ((a.window_min.map EF.fin).foldl EF.min EF.inf,
   (a.window_max.map EF.fin).foldl EF.max (EF.fin 0))

/-- The flattened y-values of all buffers of all sources, in order —
the iterator built in `App::y_axis_bounds`. -/
def allValues (a : App) : List ℚ :=
  (a.data.flatMap id).map (fun v => v.2)

/-- `App::y_axis_bounds` (main.rs lines 117-130): min/max folds over all
recorded y-values (zeros included), seeded with `f64::INFINITY` and `0`,
then widen each side by 10% of itself:
`[min - min*10/100, max + max*10/100]`. -/
def y_axis_bounds (a : App) : EF × EF :=
  let vals := (a.allValues).map EF.fin
  let min := vals.foldl EF.min EF.inf
  let max := vals.foldl EF.max (EF.fin 0)
  let max_10_percent := (max.mulPos 10).divPos 100
  let min_10_percent := (min.mulPos 10).divPos 100
  (min.sub min_10_percent, max.add max_10_percent)

/-- `App::y_axis_labels` (main.rs lines 131-143) reduced to the tick
positions in microseconds (the rendering of each position through
`Duration`'s `Debug` format and `Span::raw` is external display code):
`increment = ((max - min) / 3) as u64`, `duration = min as u64`, and the
seven labels sit at `duration + increment * i` for `i = 0..7`. -/
def y_axis_label_pos (bounds : ℚ × ℚ) : List ℕ :=
  let min := bounds.1
  let max := bounds.2
  let difference := max - min
  let increment := ratCastU64 (difference / 3)
  let duration := ratCastU64 min
  (List.range 7).map (fun i => duration + increment * i)

end App

/-- A sequence of sample events `(host_id, item)` applied in order by the
render loop's `Event::Update` arm (main.rs lines 263-267). -/
def applyEvents (a : App) (evs : List (ℕ × Option ℕ)) : App :=
  evs.foldl (fun a e => a.update e.1 e.2) a

/-- Key codes distinguished by the render loop: the crossterm `KeyCode`
reduced to the constructors the loop's `match` inspects. -/
inductive KC where
  | char : Char → KC
  | esc
  | other
  deriving DecidableEq, Repr

/-- A key event: the key code plus whether the modifier set equals
exactly `KeyModifiers::CONTROL`, which is the guard on the Ctrl-C arm. -/
structure KeyEv where
  code : KC
  ctrlOnly : Bool
  deriving DecidableEq, Repr

/-- The `Event` enum of main.rs lines 172-176, with `Update` flattened to
the `(host_id, optional duration-in-µs)` the render loop extracts. -/
inductive Ev where
  | update : ℕ → Option ℕ → Ev
  | input : KeyEv → Ev
  deriving DecidableEq, Repr

/-- The quit keys (main.rs lines 370-378): 'q' or Esc regardless of
modifiers, or 'c' with exactly the CONTROL modifier. -/
def isQuit (k : KeyEv) : Bool :=
  k.code = KC.char 'q' ∨ k.code = KC.esc ∨ (k.code = KC.char 'c' ∧ k.ctrlOnly)

/-- The render-loop state: the aggregator, the shared `killed`
cancellation flag, and whether the receive loop has exited (`break`). -/
structure LoopState where
  app : App
  killed : Bool
  stopped : Bool
  deriving DecidableEq, Repr

/-- The state just before the receive loop: the `killed` flag is created
as `AtomicBool::new(false)` (main.rs line 196). -/
def initLoopState (t C : ℕ) : LoopState :=
  ⟨App.new t C, false, false⟩

/-- One iteration of the render loop's `match rx.recv()` (main.rs lines
261-382): a sample event updates the aggregator (the redraw is external
rendering), a quit key stores `true` into `killed` and breaks, any other
input is ignored.  Once the loop has broken no further event is
processed.  These two `store(true, Release)` sites are the only writes to
the flag in the whole program; the producer threads only `load` it. -/
def loopStep (s : LoopState) (e : Ev) : LoopState :=
  if s.stopped then s
  else
    match e with
    | .update host_id item => { s with app := s.app.update host_id item }
    | .input k =>
        if isQuit k then { s with killed := true, stopped := true } else s

/-- The `Update` enum of main.rs lines 157-161. -/
inductive Upd where
  | result : ℕ → Upd
  | timeout
  deriving DecidableEq, Repr

/-- One watch-command iteration's classification (main.rs lines 214-228,
`cmd_thread`): the command's measured elapsed time (in µs) becomes
`Update::Result` exactly when the exit status is success, and
`Update::Timeout` otherwise; in either case the thread sends the event
and keeps looping — a non-success status is not an error. -/
def cmdUpdateOf (statusSuccess : Bool) (elapsed : ℕ) : Upd :=
  if statusSuccess then Upd.result elapsed else Upd.timeout

/-- The render loop's routing of an `Update` into `App::update`
(main.rs lines 263-267): a result carries its duration, a timeout
becomes `None`. -/
def applyUpd (a : App) (host_id : ℕ) (u : Upd) : App :=
  match u with
  | .result d => a.update host_id (some d)
  | .timeout => a.update host_id none

/-- The y-axis bounds as claim C2 states them (for comparison with the
code's `App.y_axis_bounds`): `min_raw` and `max_raw` range over the
non-zero recorded values only and both sides widen by 10% of `max_raw`;
`none` when no non-zero value exists. -/
def yAxisBoundsClaim (a : App) : Option (ℚ × ℚ) :=
  let vals := a.allValues.filter (fun v => v ≠ 0)
  match vals.min?, vals.max? with
  | some mn, some mx => some (mn - mx * 10 / 100, mx + mx * 10 / 100)
  | _, _ => none

/-- The tick positions as claim C4 states them (for comparison with the
code's `App.y_axis_label_pos`): the i-th tick at `min + i·(max − min)/6`
for `i = 0..6`. -/
def yAxisLabelsClaim (bounds : ℚ × ℚ) : List ℚ :=
  (List.range 7).map (fun i => bounds.1 + i * (bounds.2 - bounds.1) / 6)

/-- Structural invariant of every `App` reachable from `App::new` through
`App::update`: the capacity is the construction-time capacity, the four
per-source lists keep their length, `window_max` stays exactly
`window_min + capacity` pointwise, `window_min` entries stay nonnegative,
and every recorded y-value is nonnegative (a µs count or the timeout 0). -/
def App.Wf (t C : ℕ) (a : App) : Prop :=
  a.capacity = C ∧
  a.idx.length = t ∧
  a.window_min.length = t ∧
  a.window_max = a.window_min.map (fun x => x + (C : ℚ)) ∧
  (∀ x ∈ a.window_min, 0 ≤ x) ∧
  (∀ l ∈ a.data, ∀ p ∈ l, 0 ≤ p.2)

/-! Helper lemmas. -/

lemma getD_set_self {α : Type _} {l : List α} {n : ℕ} (h : n < l.length) (v d : α) :
    (l.set n v).getD n d = v := by
  rw [List.getD_eq_getElem?_getD, List.getElem?_set_self h, Option.getD_some]

lemma getD_set_ne {α : Type _} {l : List α} {n m : ℕ} (h : n ≠ m) (v d : α) :
    (l.set n v).getD m d = l.getD m d := by
  rw [List.getD_eq_getElem?_getD, List.getElem?_set_ne h, ← List.getD_eq_getElem?_getD]

lemma getD_nonneg {l : List ℚ} (hl : ∀ x ∈ l, 0 ≤ x) (n : ℕ) : 0 ≤ l.getD n 0 := by
  by_cases hn : n < l.length
  · rw [List.getD_eq_getElem _ _ hn]
    exact hl _ (List.getElem_mem hn)
  · rw [List.getD_eq_default _ _ (le_of_not_lt hn)]

lemma mem_rbPush {α : Type _} {cap : ℕ} {buf : List α} {x y : α}
    (h : y ∈ rbPush cap buf x) : y ∈ buf ∨ y = x := by
  unfold rbPush at h
  split at h
  · rcases List.mem_append.mp h with h' | h'
    · exact Or.inl (List.tail_subset _ h')
    · exact Or.inr (List.mem_singleton.mp h')
  · rcases List.mem_append.mp h with h' | h'
    · exact Or.inl h'
    · exact Or.inr (List.mem_singleton.mp h')

lemma getLast?_rbPush {α : Type _} (cap : ℕ) (buf : List α) (x : α) :
    (rbPush cap buf x).getLast? = some x := by
  unfold rbPush
  split <;> exact List.getLast?_concat _

/-- The value recorded for one sample: the duration's microsecond count,
or `0` for a timeout. -/
def sampleVal (item : Option ℕ) : ℚ :=
  match item with
  | some dur => (dur : ℚ)
  | none => 0

lemma sampleVal_nonneg (item : Option ℕ) : 0 ≤ sampleVal item := by
  cases item with
  | some dur => simp [sampleVal]
  | none => simp [sampleVal]

lemma App.update_capacity (a : App) (h : ℕ) (item : Option ℕ) :
    (a.update h item).capacity = a.capacity := rfl

lemma App.update_idx (a : App) (h : ℕ) (item : Option ℕ) :
    (a.update h item).idx = a.idx.set h (a.idx.getD h 0 + 1) := rfl

lemma App.update_window_min (a : App) (h : ℕ) (item : Option ℕ) :
    (a.update h item).window_min =
      if a.capacity ≤ (a.data.getD h []).length then
        a.window_min.set h (a.window_min.getD h 0 + 1)
      else a.window_min := rfl

lemma App.update_window_max (a : App) (h : ℕ) (item : Option ℕ) :
    (a.update h item).window_max =
      if a.capacity ≤ (a.data.getD h []).length then
        a.window_max.set h (a.window_max.getD h 0 + 1)
      else a.window_max := rfl

lemma App.update_data (a : App) (h : ℕ) (item : Option ℕ) :
    (a.update h item).data =
      a.data.set h (rbPush a.capacity (a.data.getD h [])
        (((a.idx.getD h 0 + 1 : ℤ) : ℚ), sampleVal item)) := by
  cases item <;> rfl

lemma EF.min_inf_fin (q : ℚ) : EF.min EF.inf (EF.fin q) = EF.fin q := rfl

lemma EF.min_fin_fin (p q : ℚ) : EF.min (EF.fin p) (EF.fin q) = EF.fin (Min.min p q) := rfl

lemma EF.max_fin_fin (p q : ℚ) : EF.max (EF.fin p) (EF.fin q) = EF.fin (Max.max p q) := rfl

lemma EF.foldl_min_fin (l : List ℚ) (q : ℚ) :
    (l.map EF.fin).foldl EF.min (EF.fin q) = EF.fin (l.foldl Min.min q) := by
  induction l generalizing q with
  | nil => rfl
  | cons x xs ih =>
    rw [List.map_cons, List.foldl_cons, List.foldl_cons, EF.min_fin_fin]
    exact ih (Min.min q x)

lemma EF.foldl_min_inf_cons (x : ℚ) (xs : List ℚ) :
    ((x :: xs).map EF.fin).foldl EF.min EF.inf = EF.fin (xs.foldl Min.min x) := by
  rw [List.map_cons, List.foldl_cons, EF.min_inf_fin, EF.foldl_min_fin]

lemma EF.foldl_max_fin (l : List ℚ) (q : ℚ) :
    (l.map EF.fin).foldl EF.max (EF.fin q) = EF.fin (l.foldl Max.max q) := by
  induction l generalizing q with
  | nil => rfl
  | cons x xs ih =>
    rw [List.map_cons, List.foldl_cons, List.foldl_cons, EF.max_fin_fin]
    exact ih (Max.max q x)

lemma EF.foldl_max_zero_cons (x : ℚ) (xs : List ℚ) (hx : 0 ≤ x) :
    ((x :: xs).map EF.fin).foldl EF.max (EF.fin 0) = EF.fin (xs.foldl Max.max x) := by
  rw [List.map_cons, List.foldl_cons, EF.max_fin_fin, max_eq_right hx, EF.foldl_max_fin]

lemma App.wf_new (t C : ℕ) : (App.new t C).Wf t C := by
  refine ⟨rfl, List.length_replicate t 0, List.length_replicate t 0, ?_, ?_, ?_⟩
  · simp [App.new, List.map_replicate]
  · intro x hx
    rw [List.eq_of_mem_replicate hx]
  · intro l hl
    rw [List.eq_of_mem_replicate hl]
    intro p hp
    exact absurd hp (List.not_mem_nil p)

lemma App.wf_update {t C : ℕ} {a : App} (w : a.Wf t C) (h : ℕ) (item : Option ℕ) :
    (a.update h item).Wf t C := by
  obtain ⟨hcap, hidx, hwl, hmap, hnn, hvals⟩ := w
  refine ⟨(a.update_capacity h item).trans hcap, ?_, ?_, ?_, ?_, ?_⟩
  · rw [App.update_idx, List.length_set]
    exact hidx
  · rw [App.update_window_min]
    split <;> simp [List.length_set, hwl]
  · rw [App.update_window_min, App.update_window_max]
    by_cases hs : a.capacity ≤ (a.data.getD h []).length
    · rw [if_pos hs, if_pos hs, hmap]
      by_cases hh : h < a.window_min.length
      · rw [List.map_set]
        congr 1
        rw [List.getD_eq_getElem _ _ (by rw [List.length_map]; exact hh),
          List.getD_eq_getElem _ _ hh, List.getElem_map]
        ring
      · rw [List.set_eq_of_length_le (by rw [List.length_map]; omega),
          List.set_eq_of_length_le (by omega)]
    · rw [if_neg hs, if_neg hs]
      exact hmap
  · intro x hx
    rw [App.update_window_min] at hx
    by_cases hs : a.capacity ≤ (a.data.getD h []).length
    · rw [if_pos hs] at hx
      rcases List.mem_or_eq_of_mem_set hx with hx' | hx'
      · exact hnn x hx'
      · have := getD_nonneg hnn h
        rw [hx']
        linarith
    · rw [if_neg hs] at hx
      exact hnn x hx
  · intro l hl p hp
    rw [App.update_data] at hl
    rcases List.mem_or_eq_of_mem_set hl with hl' | hl'
    · exact hvals l hl' p hp
    · subst hl'
      rcases mem_rbPush hp with hq | hq
      · by_cases hh : h < a.data.length
        · rw [List.getD_eq_getElem _ _ hh] at hq
          exact hvals _ (List.getElem_mem hh) p hq
        · rw [List.getD_eq_default _ _ (le_of_not_lt hh)] at hq
          exact absurd hq (List.not_mem_nil p)
      · rw [hq]
        exact sampleVal_nonneg item

lemma App.wf_applyEvents {t C : ℕ} {a : App} (w : a.Wf t C)
    (evs : List (ℕ × Option ℕ)) : (applyEvents a evs).Wf t C := by
  induction evs generalizing a with
  | nil => exact w
  | cons e evs ih => exact ih (App.wf_update w e.1 e.2)

lemma App.allValues_nonneg {t C : ℕ} {a : App} (w : a.Wf t C) :
    ∀ v ∈ a.allValues, 0 ≤ v := by
  intro v hv
  obtain ⟨-, -, -, -, -, hvals⟩ := w
  simp only [App.allValues, List.mem_map, List.mem_flatMap, id] at hv
  obtain ⟨p, ⟨l, hl, hp⟩, hpv⟩ := hv
  rw [← hpv]
  exact hvals l hl p hp

/-! Claim theorems. -/

/-- C1 (counterexample): the claimed envelope identity
`window_max − window_min = min(N, C)` is already false after a single
update with capacity 3 — the code keeps the width constantly equal to
the capacity (`window_max` starts at `capacity`, and both ends slide
together), so the width is 3, not `min(1, 3) = 1`. -/
theorem c1_counterexample :
    ((App.new 1 3).update 0 (some 1000)).window_max.getD 0 0
        - ((App.new 1 3).update 0 (some 1000)).window_min.getD 0 0
      ≠ ((Nat.min 1 3 : ℕ) : ℚ) := by
  norm_num [App.update, App.new, rbPush]

/-- C1 (amended): for every source of an `App` built by `App::new` and
any sequence of updates, the window envelope width
`window_max − window_min` constantly equals the capacity `C` — including
before the buffer has received `C` updates (where the claim expected the
width to be the number of updates so far). -/
theorem c1_window_width (t C : ℕ) (evs : List (ℕ × Option ℕ)) (h : ℕ) (ht : h < t) :
    (applyEvents (App.new t C) evs).window_max.getD h 0
      - (applyEvents (App.new t C) evs).window_min.getD h 0 = (C : ℚ) := by
  obtain ⟨-, -, hwl, hmap, -, -⟩ := App.wf_applyEvents (App.wf_new t C) evs
  have hlt : h < (applyEvents (App.new t C) evs).window_min.length := by
    rw [hwl]; exact ht
  rw [hmap, List.getD_eq_getElem _ _ (by rw [List.length_map]; exact hlt),
    List.getD_eq_getElem _ _ hlt, List.getElem_map]
  ring

/-- C1 (witness): with one source, capacity 3 and one update, the width
is the capacity 3. -/
theorem c1_window_width_witness :
    (applyEvents (App.new 1 3) [(0, some 1000)]).window_max.getD 0 0
      - (applyEvents (App.new 1 3) [(0, some 1000)]).window_min.getD 0 0
      = ((3 : ℕ) : ℚ) :=
  c1_window_width 1 3 [(0, some 1000)] 0 (by norm_num)

/-- C3: at the failing input — one source, no samples recorded yet — the
code's `y_axis_bounds` is `[NaN, 0]` (the min fold over the empty data is
`+∞`, `∞·10/100 = ∞`, and `∞ − ∞ = NaN`), not the `[0, 1]` the claim
(and the spec's contract) requires. -/
theorem c3_empty_bounds :
    (App.new 1 100).y_axis_bounds = (EF.nan, EF.fin 0) ∧
    (App.new 1 100).y_axis_bounds ≠ (EF.fin 0, EF.fin 1) := by
  constructor <;>
    simp [App.new, App.y_axis_bounds, App.allValues, EF.min, EF.max,
      EF.mulPos, EF.divPos, EF.sub, EF.add]

/-- C5: with capacity 3 and successful samples of 1ms, 2ms, 3ms, 4ms
(1000, 2000, 3000, 4000 µs), the final buffer snapshot oldest-first is
`[(2, 2ms), (3, 3ms), (4, 4ms)]`, `window_min = 1` and `window_max = 4`. -/
theorem c5_scenario :
    (applyEvents (App.new 1 3)
        [(0, some 1000), (0, some 2000), (0, some 3000), (0, some 4000)]).data
      = [[(2, 2000), (3, 3000), (4, 4000)]] ∧
    (applyEvents (App.new 1 3)
        [(0, some 1000), (0, some 2000), (0, some 3000), (0, some 4000)]).window_min
      = [1] ∧
    (applyEvents (App.new 1 3)
        [(0, some 1000), (0, some 2000), (0, some 3000), (0, some 4000)]).window_max
      = [4] := by
  norm_num [applyEvents, App.update, App.new, rbPush]

/-- C7 (auxiliary): applying a list of sample events adds to a source's
`idx` exactly the number of events addressed to that source. -/
lemma idx_applyEvents (evs : List (ℕ × Option ℕ)) :
    ∀ (a : App) (h : ℕ), h < a.idx.length →
      (applyEvents a evs).idx.getD h 0
        = a.idx.getD h 0 + ((evs.filter (fun e => e.1 = h)).length : ℤ) := by
  induction evs with
  | nil =>
    intro a h _
    simp [applyEvents]
  | cons e evs ih =>
    intro a h hh
    have hstep : applyEvents a (e :: evs) = applyEvents (a.update e.1 e.2) evs := rfl
    have hlen : h < (a.update e.1 e.2).idx.length := by
      rw [App.update_idx, List.length_set]
      exact hh
    rw [hstep, ih _ h hlen, App.update_idx]
    by_cases he : e.1 = h
    · subst he
      rw [getD_set_self hh, List.filter_cons, if_pos (by simp)]
      push_cast [List.length_cons]
      ring
    · rw [getD_set_ne he, List.filter_cons, if_neg (by simpa using he)]

/-- C7: for every source `h` of an `App` built by `App::new`, after any
sequence of update events the sequence counter `idx` of that source
equals the number of updates addressed to it — each update increments it
by exactly 1, whether the sample was a duration or a timeout. -/
theorem c7_sequence (t C h : ℕ) (ht : h < t) (evs : List (ℕ × Option ℕ)) :
    (applyEvents (App.new t C) evs).idx.getD h 0
      = ((evs.filter (fun e => e.1 = h)).length : ℤ) := by
  have hlen : h < (App.new t C).idx.length := by
    simpa [App.new] using ht
  rw [idx_applyEvents evs (App.new t C) h hlen]
  simp [App.new]

/-- C7 (witness): one source, two updates — one duration, one timeout —
leave the sequence counter at 2. -/
theorem c7_sequence_witness :
    (applyEvents (App.new 1 3) [(0, some 5), (0, none)]).idx.getD 0 0 = 2 := by
  have := c7_sequence 1 3 0 (by norm_num) [(0, some 5), (0, none)]
  simpa using this

/-- C8: for every `App` built by `App::new` with at least one source and
any sequence of updates, `x_axis_bounds` is exactly
`[minimum over sources of window_min, maximum over sources of window_max]`. -/
theorem c8_x_axis_bounds (t C : ℕ) (evs : List (ℕ × Option ℕ)) (ht : 0 < t) (m M : ℚ)
    (hm : (applyEvents (App.new t C) evs).window_min.min? = some m)
    (hM : (applyEvents (App.new t C) evs).window_max.max? = some M) :
    (applyEvents (App.new t C) evs).x_axis_bounds = (EF.fin m, EF.fin M) := by
  obtain ⟨-, -, hwl, hmap, hnn, -⟩ := App.wf_applyEvents (App.wf_new t C) evs
  obtain ⟨x, xs, hx⟩ : ∃ x xs,
      (applyEvents (App.new t C) evs).window_min = x :: xs := by
    apply List.exists_cons_of_ne_nil
    intro hnil
    rw [hnil] at hwl
    simp at hwl
    omega
  have hx0 : 0 ≤ x := hnn x (by rw [hx]; exact List.mem_cons_self x xs)
  have hm' : m = xs.foldl Min.min x := by
    rw [hx] at hm
    exact (Option.some_inj.mp hm).symm
  have hM' : M = (xs.map (fun v => v + (C : ℚ))).foldl Max.max (x + (C : ℚ)) := by
    rw [hmap, hx, List.map_cons] at hM
    exact (Option.some_inj.mp hM).symm
  unfold App.x_axis_bounds
  rw [hmap, hx]
  have h1 : ((x :: xs).map EF.fin).foldl EF.min EF.inf = EF.fin m := by
    rw [EF.foldl_min_inf_cons, hm']
  have h2 : (((x :: xs).map (fun v => v + (C : ℚ))).map EF.fin).foldl EF.max (EF.fin 0)
      = EF.fin M := by
    rw [List.map_cons, EF.foldl_max_zero_cons _ _ (by positivity), hM']
  exact congrArg₂ Prod.mk h1 h2

/-- C8 (witness): a fresh `App` with one source and capacity 3 has
`window_min = [0]`, `window_max = [3]` and `x_axis_bounds = [0, 3]`. -/
theorem c8_x_axis_bounds_witness :
    (applyEvents (App.new 1 3) []).x_axis_bounds = (EF.fin 0, EF.fin 3) :=
  c8_x_axis_bounds 1 3 [] (by norm_num) 0 3 rfl rfl

/-- C9: the shared `killed` cancellation flag makes only one-way
transitions: it is created `false`; once `true` it stays `true` under
every render-loop step; and the only steps that turn it `true` are quit
keys ('q', Esc, or Ctrl-C) — the two `store(true, Release)` sites are the
only writes to the flag in the program, and no step ever resets it. -/
theorem c9_killed_one_way (t C : ℕ) :
    (initLoopState t C).killed = false ∧
    (∀ (s : LoopState) (e : Ev), s.killed = true → (loopStep s e).killed = true) ∧
    (∀ (s : LoopState) (e : Ev), (loopStep s e).killed = true →
      s.killed = true ∨ ∃ k, e = Ev.input k ∧ isQuit k = true) := by
  refine ⟨rfl, ?_, ?_⟩
  · intro s e hk
    unfold loopStep
    split
    · exact hk
    · cases e with
      | update host_id item => exact hk
      | input k =>
        dsimp only
        split
        · rfl
        · exact hk
  · intro s e hk
    unfold loopStep at hk
    split at hk
    · exact Or.inl hk
    · cases e with
      | update host_id item => exact Or.inl hk
      | input k =>
        dsimp only at hk
        split at hk
        · exact Or.inr ⟨k, rfl, by assumption⟩
        · exact Or.inl hk

/-- C9 (witness): a step from a state with the flag already set keeps it
set. -/
theorem c9_killed_one_way_witness :
    (loopStep ⟨App.new 1 3, true, false⟩ (Ev.update 0 none)).killed = true :=
  (c9_killed_one_way 1 3).2.1 ⟨App.new 1 3, true, false⟩ (Ev.update 0 none) rfl

/-- C10: in watch-command mode, one iteration's sample is classified by
the exit status — success records the measured elapsed time, any other
status is a timeout — and the render loop then records it in source 0's
buffer as the data point `(idx+1, elapsed µs)` on success and as the
zero data point `(idx+1, 0)` otherwise; either way a point is recorded,
never an error. -/
theorem c10_watch_classification (a : App) (statusSuccess : Bool) (elapsed : ℕ)
    (hd : a.data ≠ []) :
    ((applyUpd a 0 (cmdUpdateOf statusSuccess elapsed)).data.getD 0 []).getLast?
      = some (((a.idx.getD 0 0 + 1 : ℤ) : ℚ),
          if statusSuccess then (elapsed : ℚ) else 0) := by
  have hlen : 0 < a.data.length := List.length_pos.mpr hd
  cases statusSuccess with
  | true =>
    rw [if_pos rfl]
    show ((a.update 0 (some elapsed)).data.getD 0 []).getLast? = _
    rw [App.update_data, getD_set_self hlen, getLast?_rbPush, sampleVal]
  | false =>
    rw [if_neg Bool.false_ne_true]
    show ((a.update 0 none).data.getD 0 []).getLast? = _
    rw [App.update_data, getD_set_self hlen, getLast?_rbPush, sampleVal]

/-- C10 (witness): on a fresh single-source `App`, a successful run of
7 µs is recorded as the point `(1, 7)`. -/
theorem c10_watch_classification_witness :
    ((applyUpd (App.new 1 3) 0 (cmdUpdateOf true 7)).data.getD 0 []).getLast?
      = some (1, 7) := by
  have := c10_watch_classification (App.new 1 3) true 7 (by simp [App.new])
  simpa [App.new] using this

/-- C2 (counterexample): with recorded values 1000 µs and 2000 µs (no
timeout at all), the claim's formula gives a lower bound of
`min_raw − 0.10·max_raw = 1000 − 200 = 800`, but the code widens the
lower side by 10% of the *minimum*: it returns `1000 − 100 = 900`, so
`y_axis_bounds` is not the claimed `[800, 2200]`. -/
theorem c2_counterexample :
    yAxisBoundsClaim (applyEvents (App.new 1 3) [(0, some 1000), (0, some 2000)])
      = some (800, 2200) ∧
    (applyEvents (App.new 1 3) [(0, some 1000), (0, some 2000)]).y_axis_bounds
      ≠ (EF.fin 800, EF.fin 2200) := by
  constructor
  · norm_num [yAxisBoundsClaim, App.allValues, applyEvents, App.update, App.new,
      rbPush, List.filter, List.min?, List.max?]
  · norm_num [App.y_axis_bounds, App.allValues, applyEvents, App.update, App.new,
      rbPush, EF.min, EF.max, EF.mulPos, EF.divPos, EF.sub, EF.add]

/-- C2 (amended): for every reachable `App` with at least one recorded
sample, `y_axis_bounds` is computed over ALL recorded values — zeros
from timeouts included, so a timeout drags the minimum to 0 — and each
side widens by 10% of itself, not of the maximum:
`[min − 0.10·min, max + 0.10·max]` with `min`/`max` the fold over every
recorded value. -/
theorem c2_y_axis_bounds (t C : ℕ) (evs : List (ℕ × Option ℕ)) (x : ℚ) (xs : List ℚ)
    (hv : (applyEvents (App.new t C) evs).allValues = x :: xs) :
    (applyEvents (App.new t C) evs).y_axis_bounds
      = (EF.fin (xs.foldl Min.min x - xs.foldl Min.min x * 10 / 100),
         EF.fin (xs.foldl Max.max x + xs.foldl Max.max x * 10 / 100)) := by
  have hx0 : 0 ≤ x :=
    App.allValues_nonneg (App.wf_applyEvents (App.wf_new t C) evs) x
      (by rw [hv]; exact List.mem_cons_self x xs)
  simp only [App.y_axis_bounds]
  rw [hv, EF.foldl_min_inf_cons, EF.foldl_max_zero_cons _ _ hx0]
  rfl

/-- C2 (witness): a single 1000 µs sample gives
`[1000 − 100, 1000 + 100] = [900, 1100]`. -/
theorem c2_y_axis_bounds_witness :
    (applyEvents (App.new 1 3) [(0, some 1000)]).y_axis_bounds
      = (EF.fin (1000 - 1000 * 10 / 100), EF.fin (1000 + 1000 * 10 / 100)) := by
  have hv : (applyEvents (App.new 1 3) [(0, some 1000)]).allValues = [1000] := by
    norm_num [App.allValues, applyEvents, App.update, App.new, rbPush]
  exact c2_y_axis_bounds 1 3 [(0, some 1000)] 1000 [] hv

/-- C4 (auxiliary): the i-th tick position produced by the code. -/
lemma label_pos_getD (bounds : ℚ × ℚ) (i : ℕ) (hi : i < 7) :
    (App.y_axis_label_pos bounds).getD i 0
      = ratCastU64 bounds.1 + ratCastU64 ((bounds.2 - bounds.1) / 3) * i := by
  have hlen : i < (App.y_axis_label_pos bounds).length := by
    simpa [App.y_axis_label_pos] using hi
  rw [List.getD_eq_getElem _ _ hlen]
  simp [App.y_axis_label_pos]

/-- C4 (counterexample): for bounds `[0, 6000]` the claim puts the i-th
tick at `0 + i·6000/6`, i.e. `[0, 1000, ..., 6000]`, but the code's
increment is `(max − min)/3 = 2000`, producing
`[0, 2000, 4000, ..., 12000]`. -/
theorem c4_counterexample :
    yAxisLabelsClaim (0, 6000) = [0, 1000, 2000, 3000, 4000, 5000, 6000] ∧
    (App.y_axis_label_pos (0, 6000)).map (fun n => (n : ℚ))
      ≠ yAxisLabelsClaim (0, 6000) := by
  have hclaim : yAxisLabelsClaim (0, 6000)
      = [0, 1000, 2000, 3000, 4000, 5000, 6000] := by
    norm_num [yAxisLabelsClaim, List.range_succ]
  refine ⟨hclaim, ?_⟩
  rw [hclaim]
  norm_num [App.y_axis_label_pos, ratCastU64, List.range_succ]
  simp only [show Int.toNat 2000 = 2000 from rfl]
  norm_num

/-- C4 (amended): `y_axis_labels` produces 7 tick labels that are evenly
spaced, but with common spacing `trunc((max − min)/3)` starting at
`trunc(min)` — the i-th tick sits at `min + i·(max − min)/3` (truncated
to whole microseconds), not at `min + i·(max − min)/6`, so the ticks
span twice the bounds interval rather than partitioning it. -/
theorem c4_label_positions (bounds : ℚ × ℚ) :
    (App.y_axis_label_pos bounds).length = 7 ∧
    (App.y_axis_label_pos bounds).getD 0 0 = ratCastU64 bounds.1 ∧
    ∀ i, i < 6 →
      (App.y_axis_label_pos bounds).getD (i + 1) 0
        = (App.y_axis_label_pos bounds).getD i 0
          + ratCastU64 ((bounds.2 - bounds.1) / 3) := by
  refine ⟨by simp [App.y_axis_label_pos], ?_, ?_⟩
  · rw [label_pos_getD bounds 0 (by norm_num)]
    ring
  · intro i hi
    rw [label_pos_getD bounds (i + 1) (by omega), label_pos_getD bounds i (by omega)]
    ring

/-- C4 (witness): for bounds `[0, 6000]` the second tick is the first
tick plus the truncated increment `(6000 − 0)/3 = 2000`. -/
theorem c4_label_positions_witness :
    (App.y_axis_label_pos (0, 6000)).getD 1 0
      = (App.y_axis_label_pos (0, 6000)).getD 0 0
        + ratCastU64 (((6000 : ℚ) - 0) / 3) :=
  (c4_label_positions (0, 6000)).2.2 0 (by norm_num)

/-- C6: over inserted values 10, 20, 30 µs and a timeout, the per-source
histogram is built only from the non-zero values — minimum 10, maximum
30 — provided those values are inside the representable range `bound`;
and any value beyond the range is silently dropped by a total
`increment`, never failing the update. -/
theorem c6_stats (bound : ℕ) (hb : 30 ≤ bound) :
    ((App.stats bound (applyEvents (App.new 1 100)
        [(0, some 10), (0, some 20), (0, some 30), (0, none)])).getD 0 []).min?
      = some 10 ∧
    ((App.stats bound (applyEvents (App.new 1 100)
        [(0, some 10), (0, some 20), (0, some 30), (0, none)])).getD 0 []).max?
      = some 30 ∧
    ∀ (h : List ℕ) (v : ℕ), bound < v → App.histIncrement bound h v = h := by
  have h10 : (10 : ℕ) ≤ bound := by omega
  have h20 : (20 : ℕ) ≤ bound := by omega
  have h30 : (30 : ℕ) ≤ bound := by omega
  have hr10 : ratCastU64 10 = 10 := by (norm_num [ratCastU64]; decide)
  have hr20 : ratCastU64 20 = 20 := by (norm_num [ratCastU64]; decide)
  have hr30 : ratCastU64 30 = 30 := by (norm_num [ratCastU64]; decide)
  have hstats : App.stats bound (applyEvents (App.new 1 100)
      [(0, some 10), (0, some 20), (0, some 30), (0, none)]) = [[10, 20, 30]] := by
    norm_num [App.stats, App.histIncrement, applyEvents, App.update, App.new, rbPush,
      List.filter, hr10, hr20, hr30, h10, h20, h30]
  refine ⟨by rw [hstats]; decide, by rw [hstats]; decide, ?_⟩
  intro h v hv
  simp only [App.histIncrement]
  rw [if_neg (by omega)]

/-- C6 (witness): at the exact representable bound 30 the statistics
report minimum 10 and maximum 30, and the out-of-range value 31 is
silently dropped. -/
theorem c6_stats_witness :
    ((App.stats 30 (applyEvents (App.new 1 100)
        [(0, some 10), (0, some 20), (0, some 30), (0, none)])).getD 0 []).min?
      = some 10 ∧
    ((App.stats 30 (applyEvents (App.new 1 100)
        [(0, some 10), (0, some 20), (0, some 30), (0, none)])).getD 0 []).max?
      = some 30 ∧
    App.histIncrement 30 [10] 31 = [10] :=
  ⟨(c6_stats 30 (by norm_num)).1, (c6_stats 30 (by norm_num)).2.1,
    (c6_stats 30 (by norm_num)).2.2 [10] 31 (by norm_num)⟩
